import Mathlib

/-!
Verification of the persistence layer of `quanalys` (file
`quanalys/syncdata/h5py_utils.py`): a shallow embedding of the Python
module's data model and operations, plus theorems checking the
specification's claims about it.

Modelling conventions, recorded once here:

* Python `float` values are embedded as exact rationals (`ℚ`); rounding of a
  decimal-format operation is modelled as round-half-to-even on the rational
  (CPython rounds the underlying binary double, which agrees on all inputs
  whose rational value is not a decimal tie and is exactly representable).
* `numpy` arrays are modelled as flat numeric arrays (`NpArr`): an int64 or a
  float64 vector.  Multi-dimensional, string, bool and object dtypes are
  outside the model; `np.array(...)` on a sequence that would need them is
  modelled as an h5py-level error where the writer would consume it.
* Python `dict`s are association lists in insertion order.  Real dicts have
  unique keys, so theorems that need uniqueness take it as a hypothesis.
  h5py group iteration is modelled in insertion order; all claims compare
  read results either entrywise or against an order-preserving image, so no
assertion depends on h5py's alphabetical iteration order.
* The filesystem state (`FS`) is the pair of the lock-sentinel existence flag
  and the container tree.  Timestamps (`os.path.getmtime`) are not modelled.
* On an error raised inside the h5py body, the partially-written container
  contents are not tracked (no claim inspects them); the lock flag is.
-/

set_option autoImplicit false
set_option maxRecDepth 4000

namespace AcqUtils

/-! ### Kernel-computable string and number rendering helpers

These mirror CPython's rendering of ints and of `%.3f` / `%.3e` format
specifiers, written with fuel-based structural recursion so that concrete
instances reduce by `decide`. -/

/-- Decimal digit to character. -/
def digitChar (n : Nat) : Char :=
  match n with
  | 0 => '0' | 1 => '1' | 2 => '2' | 3 => '3' | 4 => '4'
  | 5 => '5' | 6 => '6' | 7 => '7' | 8 => '8' | _ => '9'

/-- Fueled decimal digit expansion. -/
def natDigitsAux : Nat → Nat → List Char
  | 0, _ => []
  | fuel + 1, n =>
      if n < 10 then [digitChar n]
      else natDigitsAux fuel (n / 10) ++ [digitChar (n % 10)]

/-- Decimal digits of a natural number, most significant first. -/
def natDigits (n : Nat) : List Char := natDigitsAux (n + 1) n

/-- Decimal rendering of an integer, as Python `str(int)` writes it. -/
def intChars (n : Int) : List Char :=
  if n < 0 then '-' :: natDigits n.natAbs else natDigits n.natAbs

/-- Fueled base-10 logarithm. -/
def log10Aux : Nat → Nat → Nat
  | 0, _ => 0
  | fuel + 1, n => if n < 10 then 0 else log10Aux fuel (n / 10) + 1

/-- Base-10 logarithm of a positive natural (digit count minus one). -/
def log10 (n : Nat) : Nat := log10Aux (n + 1) n

/-- Least `k` with `10 ^ k ≥ n`, for `n ≥ 1`. -/
def clog10 (n : Nat) : Nat :=
  if n ≤ 1 then 0 else log10 (n - 1) + 1

/-- Round a rational to the nearest integer, ties to even (the rounding used
by CPython's string formatting of doubles, transported to exact rationals). -/
def rhe (q : ℚ) : ℤ :=
  let f := ⌊q⌋
  if q - (f : ℚ) < 1/2 then f
  else if (1:ℚ)/2 < q - (f : ℚ) then f + 1
  else if f % 2 = 0 then f else f + 1

/-- Integer power of ten as a rational. -/
def pow10 (e : ℤ) : ℚ :=
  if 0 ≤ e then ((10:ℚ) ^ e.toNat) else 1 / (10:ℚ) ^ (-e).toNat

/-- Decimal exponent of a positive rational: the largest `e` with
`10 ^ e ≤ q`. -/
def decExp (q : ℚ) : ℤ :=
  if 1 ≤ q then (log10 ⌊q⌋.toNat : ℤ) else -(clog10 ⌈1/q⌉.toNat : ℤ)

/-- Left-pad a digit list with zeros to width `w`. -/
def padZeros (ds : List Char) (w : Nat) : List Char :=
  List.replicate (w - ds.length) '0' ++ ds

/-- Python `f"{v:.3f}"` on an exact rational. -/
def fmtFixed3 (q : ℚ) : String :=
  String.mk ((if q < 0 then ['-'] else []) ++
    natDigits ((rhe (q * 1000)).natAbs / 1000) ++ '.' ::
    padZeros (natDigits ((rhe (q * 1000)).natAbs % 1000)) 3)

/-- Mantissa digits (an integer in `[1000, 9999]`, read as `d.ddd`) and
decimal exponent used by `f"{v:.3e}"`, for `q ≠ 0`. -/
def sciDigits (q : ℚ) : ℤ × ℤ :=
  let e0 := decExp |q|
  let n0 := rhe (|q| / pow10 e0 * 1000)
  if n0 = 10000 then (1000, e0 + 1) else (n0, e0)

/-- Python `f"{v:.3e}"` on an exact rational. -/
def fmtSci3 (q : ℚ) : String :=
  if q = 0 then "0.000e+00"
  else
    String.mk ((if q < 0 then ['-'] else []) ++
      (natDigits (sciDigits q).1.natAbs).take 1 ++ '.' :: (natDigits (sciDigits q).1.natAbs).drop 1 ++
      'e' :: (if (sciDigits q).2 < 0 then '-' else '+') ::
      padZeros (natDigits (sciDigits q).2.natAbs) 2)

/-! ### The Python value model -/

/-- Numeric numpy arrays: an `int64` or a `float64` vector (see the module
header for the scope of the array model). -/
inductive NpArr where
  | ints (xs : List Int)
  | floats (xs : List ℚ)

/-- Python values that can reach the persistence layer.  An object with the
duck-typed capabilities (`__should_not_be_converted__`, `_asdict`,
`asarray`) is `pyobj name marker asdictA asarrayA`: `marker = some b` models
`hasattr(v, "__should_not_be_converted__")` with value `b`, `asdictA = some
es` models `hasattr(v, "_asdict")` returning `es`, and `asarrayA = some a`
models `hasattr(v, "asarray")` returning `a`. -/
inductive PyVal where
  | pynone
  | pybool (b : Bool)
  | pyint (n : ℤ)
  | pyfloat (q : ℚ)
  | pystr (s : String)
  | pybytes (s : String)
  | pylist (xs : List PyVal)
  | pytuple (xs : List PyVal)
  | pyset (xs : List PyVal)
  | nparr (a : NpArr)
  | pydict (es : List (String × PyVal))
  | pyobj (nm : String) (marker : Option Bool) (asdictA : Option (List (String × PyVal)))
      (asarrayA : Option NpArr)

/-- Element view for numeric conversion: a Python `int`. -/
def asInt? : PyVal → Option ℤ
  | .pyint n => some n
  | _ => none

/-- Element view for numeric conversion: a Python `int` or `float`, as a
rational. -/
def asRat? : PyVal → Option ℚ
  | .pyint n => some (n : ℚ)
  | .pyfloat q => some q
  | _ => none

/-- Model of `np.array` on a flat sequence: all-`int` elements give an int64
array, a mix of `int` and `float` gives a float64 array (ints are cast), an
empty sequence gives an empty float64 array, and any other element mix is
outside the numeric-array model (`none`). -/
def npOfList (xs : List PyVal) : Option NpArr :=
  if xs.isEmpty then some (.floats [])
  else
    match xs.mapM asInt? with
    | some ns => some (.ints ns)
    | none =>
        match xs.mapM asRat? with
        | some qs => some (.floats qs)
        | none => none

/-! ### The value normalizer: `transform_to_possible_formats` -/

mutual

/-- Model of `transform_to_possible_formats` (h5py_utils.py lines 54-72).
The `__should_not_be_converted__ is True` check short-circuits everything;
then `_asdict`, then `asarray`, then the dict branch mutates each value in
place recursively, and tuples/sets/lists become `np.array`s. -/
def transform_to_possible_formats : PyVal → PyVal
  | .pyobj nm (some true) ad aa => .pyobj nm (some true) ad aa
  | .pyobj _ _ (some d) _ =>
      -- data = data._asdict(); a dict has no `asarray`, so the dict branch
      -- recurses into each value
      .pydict (transformEntries d)
  | .pyobj _ _ none (some a) => .nparr a
  | .pyobj nm m none none => .pyobj nm m none none
  | .pydict es => .pydict (transformEntries es)
  | .pytuple xs =>
      match npOfList xs with
      | some a => .nparr a
      | none => .pytuple xs
  | .pyset xs =>
      match npOfList xs with
      | some a => .nparr a
      | none => .pyset xs
  | .pylist xs =>
      match npOfList xs with
      | some a => .nparr a
      | none => .pylist xs
  | v => v

/-- Recursion of the normalizer through the entries of a dict
(`for key, value in data.items(): data[key] = transform_to_possible_formats(value)`). -/
def transformEntries : List (String × PyVal) → List (String × PyVal)
  | [] => []
  | (k, v) :: rest => (k, transform_to_possible_formats v) :: transformEntries rest

end

/-- Model of `transform_on_open` (lines 75-78): byte strings are decoded to
text, everything else is returned unchanged. -/
def transform_on_open : PyVal → PyVal
  | .pybytes s => .pystr s
  | v => v

/-! ### The container model and the writer -/

/-- A leaf dataset of the hierarchical container.  A stored Python or numpy
string is kept as the byte string h5py returns on read (`hS`). -/
inductive HLeaf where
  | hI (n : ℤ)
  | hF (q : ℚ)
  | hB (b : Bool)
  | hS (s : String)
  | hA (a : NpArr)

/-- A node of the hierarchical container: a group of named children or a
leaf dataset. -/
inductive HNode where
  | group (cs : List (String × HNode))
  | dset (l : HLeaf)

mutual

/-- Model of `save_sub_dict` (lines 81-98).  `_asdict` and then `asarray`
are applied if present (ignoring the opaque marker, which this function
never consults); a dict becomes a group written recursively; `None` produces
nothing; an `ndarray` or `list` leaf is stored as a (compressed) dataset and
any other storable value as a plain dataset.  `Except.error` models an
exception raised by h5py on data it cannot store (sets, capability-free
objects, sequences outside the numeric-array model). -/
def save_sub_dict : PyVal → Except Unit (Option HNode)
  | .pyobj _ _ (some d) _ => do
      -- data = data._asdict(); the result is a dict, so the dict branch runs
      let cs ← save_entries d
      return some (.group cs)
  | .pyobj _ _ none (some a) => .ok (some (.dset (.hA a)))
  | .pyobj _ _ none none => .error ()
  | .pydict es => do
      let cs ← save_entries es
      return some (.group cs)
  | .pynone => .ok none
  | .nparr a => .ok (some (.dset (.hA a)))
  | .pylist xs =>
      match npOfList xs with
      | some a => .ok (some (.dset (.hA a)))
      | none => .error ()
  | .pytuple xs =>
      -- a tuple is not caught by the `(np.ndarray, list)` branch; h5py still
      -- converts it to a numeric array in `create_dataset`
      match npOfList xs with
      | some a => .ok (some (.dset (.hA a)))
      | none => .error ()
  | .pyset _ => .error ()
  | .pyint n => .ok (some (.dset (.hI n)))
  | .pyfloat q => .ok (some (.dset (.hF q)))
  | .pybool b => .ok (some (.dset (.hB b)))
  | .pystr s => .ok (some (.dset (.hS s)))
  | .pybytes s => .ok (some (.dset (.hS s)))

/-- The `for k, v in data.items(): save_sub_dict(g, v, k)` loop: children
are written in order, a `None` value writes nothing, the first h5py error
aborts. -/
def save_entries : List (String × PyVal) → Except Unit (List (String × HNode))
  | [] => .ok []
  | (k, v) :: rest => do
      let n? ← save_sub_dict v
      let cs ← save_entries rest
      match n? with
      | some n => return (k, n) :: cs
      | none => return cs

end

/-- Whether a key occurs in an association list (kernel-computable). -/
def keyMemB {α : Type} (k : String) : List (String × α) → Bool
  | [] => false
  | (k', _) :: rest => k == k' || keyMemB k rest

/-- Uniqueness of the keys of an association list (kernel-computable). -/
def keysNodupB {α : Type} : List (String × α) → Bool
  | [] => true
  | (k, _) :: rest => !keyMemB k rest && keysNodupB rest

/-- Errors surfaced by a mutating call: the lock sentinel already existed
(`FileLockedError`), or h5py raised inside the body. -/
inductive SaveErr where
  | fileLocked
  | h5err

/-- Filesystem state for one container path: whether the `.lock` sentinel
exists, and the container tree (empty list for a fresh or absent file —
h5py mode `'a'` creates an empty file). -/
structure FS where
  lock : Bool
  tree : List (String × HNode)

/-- Model of `LockFile.__enter__` (lines 34-38): fail with `FileLockedError`
if the sentinel exists, otherwise create it. -/
def LockFile_enter (lockExists : Bool) : Except SaveErr Bool :=
  if lockExists then .error .fileLocked else .ok true

/-- Model of `LockFile.__exit__` (lines 41-43): remove the sentinel if it
exists (idempotent); runs on every exit path of the `with` body. -/
def LockFile_exit (_lockExists : Bool) : Bool := false

/-- The loop body of `save_dict` (lines 110-115) over the already-open file:
an existing key is popped first, a `None` value is skipped, anything else is
written with `save_sub_dict`. -/
def save_dict_body : List (String × HNode) → List (String × PyVal) → Except Unit (List (String × HNode))
  | t, [] => .ok t
  | t, (k, v) :: rest =>
      let t1 := if keyMemB k t then t.eraseP (fun e => k == e.1) else t
      match v with
      | .pynone => save_dict_body t1 rest
      | _ => do
          let n? ← save_sub_dict v
          match n? with
          | some n => save_dict_body (t1 ++ [(k, n)]) rest
          | none => save_dict_body t1 rest

/-- Model of `save_dict` (lines 101-116): the whole body runs inside
`with LockFile(filename)`.  If `__enter__` raises, the body never runs and
the filesystem is untouched; otherwise `__exit__` removes the sentinel
whether the body returned or raised.  The returned pair is (outcome,
filesystem state after the call). -/
def save_dict (fs : FS) (data : List (String × PyVal)) : Except SaveErr Unit × FS :=
  match LockFile_enter fs.lock with
  | .error e => (.error e, fs)
  | .ok lockHeld =>
      match save_dict_body fs.tree data with
      | .ok t => (.ok (), ⟨LockFile_exit lockHeld, t⟩)
      | .error _ => (.error .h5err, ⟨LockFile_exit lockHeld, fs.tree⟩)

/-! ### The reader -/

/-- The `key` argument of `open_h5` / `open_h5_group`: absent, a single
string (wrapped by the code into `set([key])`), or a set of strings. -/
inductive KeyArg where
  | noKey
  | strKey (s : String)
  | setKey (ks : List String)

/-- The top-level key filter the code builds:
`key if isinstance(key, set) else set([key])`, or no filter at all. -/
def keyFilter : KeyArg → Option (List String)
  | .noKey => none
  | .strKey s => some [s]
  | .setKey ks => some ks

/-- Whether the loop of `open_h5_group` processes key `k` (line 148). -/
def selectedKey (key : KeyArg) (k : String) : Bool :=
  match keyFilter key with
  | none => true
  | some ks => ks.contains k

/-- Reading a leaf dataset: `value[()]`.  A stored string comes back as a
byte string (h5py 3 semantics), numbers and arrays as themselves. -/
def readLeaf : HLeaf → PyVal
  | .hI n => .pyint n
  | .hF q => .pyfloat q
  | .hB b => .pybool b
  | .hS s => .pybytes s
  | .hA a => .nparr a

/-- Model of `open_h5_group` (lines 139-155): iterate over the group's
children, skip keys the first-level filter excludes, recurse into subgroups
with no filter, and run `transform_on_open` on every leaf value. -/
def open_h5_group : List (String × HNode) → KeyArg → List (String × PyVal)
  | [], _ => []
  | (k, n) :: rest, key =>
      if selectedKey key k then
        (k, match n with
            | .group sub => .pydict (open_h5_group sub .noKey)
            | .dset l => transform_on_open (readLeaf l)) :: open_h5_group rest key
      else open_h5_group rest key

/-- Model of `open_h5` (lines 134-136): read the whole container file (no
lock is taken). -/
def open_h5 (fs : FS) (key : KeyArg) : List (String × PyVal) :=
  open_h5_group fs.tree key

/-- The value `open_h5_group` produces for one child node. -/
def nodeVal : HNode → PyVal
  | .group sub => .pydict (open_h5_group sub .noKey)
  | .dset l => transform_on_open (readLeaf l)

/-! ### The structure summarizer -/

/-- The result type of `get_dict_structure`: each key maps either to a
description string or to a nested structure dict. -/
inductive Struct where
  | str (s : String)
  | dict (es : List (String × Struct))

/-- Python `len` of an intermediate summarizer value, which the code applies
to `internal_structure` whether it is a dict or the string "empty dict". -/
def slen : Struct → Nat
  | .str s => s.length
  | .dict es => es.length

/-- Python `type(v).__name__` for the embedded values. -/
def typeName : PyVal → String
  | .pynone => "NoneType"
  | .pybool _ => "bool"
  | .pyint _ => "int"
  | .pyfloat _ => "float"
  | .pystr _ => "str"
  | .pybytes _ => "bytes"
  | .pylist _ => "list"
  | .pytuple _ => "tuple"
  | .pyset _ => "set"
  | .nparr _ => "ndarray"
  | .pydict _ => "dict"
  | .pyobj nm _ _ _ => nm

/-- Length of a numeric array. -/
def npLen : NpArr → Nat
  | .ints xs => xs.length
  | .floats xs => xs.length

/-- Python's rendering of the 1-tuple `np.shape(v)` for the flat sequences
of the model: `"(n,)"`. -/
def shapeStr (n : Nat) : String := String.mk ('(' :: natDigits n ++ [',', ')'])

mutual

/-- Model of `get_dict_structure` (lines 171-192).  The branches follow the
source's `isinstance` order; a Python `bool` is an instance of `int`, so it
is caught by the integer branch.  `level` is the recursion budget
(`level=3` by default); the code's `if level:` test is `level ≠ 0`. -/
def get_dict_structure : List (String × PyVal) → Nat → List (String × Struct)
  | [], _ => []
  | (k, v) :: rest, level => (k, describeVal v level) :: get_dict_structure rest level

/-- The description `get_dict_structure` computes for one value. -/
def describeVal : PyVal → Nat → Struct
  | .pydict es, level =>
      if level ≠ 0 then
        let internal : Struct :=
          if es.length ≠ 0 then .dict (get_dict_structure es (level - 1)) else .str "empty dict"
        if 5 < slen internal then .str "variable of type dict" else internal
      else .str "variable of type dict"
  | .nparr a, _ => .str ("shape: " ++ shapeStr (npLen a) ++ " (type: ndarray)")
  | .pylist xs, _ => .str ("shape: " ++ shapeStr xs.length ++ " (type: list)")
  | .pybool b, _ =>
      -- isinstance(True, int) holds: f"{v:.0f}" renders the bool as 1 or 0
      .str (String.mk (intChars (if b then 1 else 0)) ++ " (type : bool)")
  | .pyint n, _ => .str (String.mk (intChars n) ++ " (type : int)")
  | .pyfloat q, _ =>
      .str ((if 1/10 ≤ q ∧ q ≤ 100 then fmtFixed3 q else fmtSci3 q) ++ " (type : float)")
  | v, _ => .str ("variable of type " ++ typeName v)

end

/-! ### JSON rendering (`dict_to_json_format_str`) and annotation splicing -/

/-- Escaping of `json.dumps` restricted to the characters the summarizer can
produce (its output is plain printable ASCII, so only a quote or backslash
would be escaped). -/
def jsonEscapeChar (c : Char) : List Char :=
  if c = '"' then ['\\', '"'] else if c = '\\' then ['\\', '\\'] else [c]

/-- Lexicographic comparison of character lists by code point, as Python
compares strings (kernel-computable). -/
def charListLe : List Char → List Char → Bool
  | [], _ => true
  | _ :: _, [] => false
  | a :: as, b :: bs => if a = b then charListLe as bs else decide (a.toNat < b.toNat)

/-- Python string order, by code points. -/
def strLeB (a b : String) : Bool := charListLe a.data b.data

/-- Stable insertion of an entry into a key-sorted list. -/
def insertByKey (e : String × Struct) : List (String × Struct) → List (String × Struct)
  | [] => [e]
  | f :: rest => if strLeB e.1 f.1 then e :: f :: rest else f :: insertByKey e rest

/-- Key-sort of `json.dumps(..., sort_keys=True)`. -/
def sortByKey : List (String × Struct) → List (String × Struct)
  | [] => []
  | e :: rest => insertByKey e (sortByKey rest)

/-- Indentation of width `n`. -/
def indentChars (n : Nat) : List Char := List.replicate n ' '

/-- JSON escaping of a whole string. -/
def escChars (s : String) : List Char := (s.data.map jsonEscapeChar).flatten

theorem sizeOf_insertByKey (e : String × Struct) (l : List (String × Struct)) :
    sizeOf (insertByKey e l) = 1 + sizeOf e + sizeOf l := by
  induction l with
  | nil => simp [insertByKey]
  | cons f rest ih =>
      simp only [insertByKey]
      split
      · simp
      · simp [ih]
        omega

theorem sizeOf_sortByKey (l : List (String × Struct)) :
    sizeOf (sortByKey l) = sizeOf l := by
  induction l with
  | nil => rfl
  | cons e rest ih => simp [sortByKey, sizeOf_insertByKey, ih]

mutual

/-- Rendering of one summarizer value as `json.dumps(v, sort_keys=True,
indent=4)` lays it out, at surrounding indentation `ind`. -/
def dumpStruct : Struct → Nat → List Char
  | .str s, _ => '"' :: escChars s ++ ['"']
  | .dict es, ind =>
      match h : sortByKey es with
      | [] => ['\x7b', '\x7d']
      | e :: rest =>
          '\x7b' :: '\n' :: dumpEntry e (ind + 4) ++ dumpRest rest (ind + 4) ++
            '\n' :: indentChars ind ++ ['\x7d']
termination_by s _ => sizeOf s
decreasing_by
  all_goals
    have hs : sizeOf (sortByKey es) = sizeOf es := sizeOf_sortByKey es
    rw [h] at hs
    simp at hs ⊢
    omega

/-- One `"key": value` line at indentation `ind`. -/
def dumpEntry : String × Struct → Nat → List Char
  | (k, v), ind =>
      indentChars ind ++ '"' :: escChars k ++ '"' :: ':' :: ' ' :: dumpStruct v ind
termination_by e _ => sizeOf e
decreasing_by
  all_goals (simp; try omega)

/-- The remaining `,\n`-separated entry lines. -/
def dumpRest : List (String × Struct) → Nat → List Char
  | [], _ => []
  | e :: rest, ind => ',' :: '\n' :: dumpEntry e ind ++ dumpRest rest ind
termination_by l _ => sizeOf l
decreasing_by
  all_goals (simp; try omega)

end

/-- Model of `dict_to_json_format_str` (lines 166-168):
`json.dumps(data, sort_keys=True, indent=4)`. -/
def dict_to_json_format_str (data : List (String × Struct)) : String :=
  String.mk (dumpStruct (.dict data) 0)

/-- Whether `pat` is an initial segment of `s` (kernel-computable). -/
def startsWith : List Char → List Char → Bool
  | [], _ => true
  | _ :: _, [] => false
  | a :: as, b :: bs => a = b && startsWith as bs

/-- Fueled body of Python `str.replace`: scan left to right, replace each
non-overlapping occurrence of `pat`. -/
def replaceCharsAux (pat rep : List Char) : Nat → List Char → List Char
  | 0, s => s
  | _ + 1, [] => []
  | fuel + 1, c :: rest =>
      if startsWith pat (c :: rest) then
        rep ++ replaceCharsAux pat rep fuel (List.drop (pat.length - 1) rest)
      else
        c :: replaceCharsAux pat rep fuel rest

/-- Model of Python `str.replace(pat, rep)` for a non-empty pattern. -/
def strReplace (s pat rep : String) : String :=
  match pat.data with
  | [] => s
  | _ => String.mk (replaceCharsAux pat.data rep.data s.data.length s.data)

/-- Model of `output_dict_structure` (lines 158-163): render the summary of
`data` and then, for each `(key, value)` in `additional_info`, replace every
occurrence of `"key":` by `"key"value:` in the rendered text. -/
def output_dict_structure (data : List (String × PyVal))
    (additional_info : List (String × String)) : String :=
  additional_info.foldl
    (fun s kv => strReplace s ("\"" ++ kv.1 ++ "\":") ("\"" ++ kv.1 ++ "\"" ++ kv.2 ++ ":"))
    (dict_to_json_format_str (get_dict_structure data 3))

/-- Modelled from the claim's words, for comparison with the code: splice
each annotation string immediately AFTER the corresponding key's colon. -/
def output_dict_structure_claimed (data : List (String × PyVal))
    (additional_info : List (String × String)) : String :=
  additional_info.foldl
    (fun s kv => strReplace s ("\"" ++ kv.1 ++ "\":") ("\"" ++ kv.1 ++ "\":" ++ kv.2))
    (dict_to_json_format_str (get_dict_structure data 3))

/-! ### Round-trip apparatus (claim-side definitions) -/

mutual

/-- The nested shapes claim C1 quantifies over: scalar leaves (ints, floats,
bools, text and byte strings), numeric arrays, lists/tuples of numbers, and
nested mappings with unique keys and no `None` values. -/
def supported : PyVal → Bool
  | .pybool _ => true
  | .pyint _ => true
  | .pyfloat _ => true
  | .pystr _ => true
  | .pybytes _ => true
  | .nparr _ => true
  | .pylist xs => (npOfList xs).isSome
  | .pytuple xs => (npOfList xs).isSome
  | .pydict es => keysNodupB es && supportedEntries es
  | _ => false

/-- Conjunction of `supported` over the entries of a dict. -/
def supportedEntries : List (String × PyVal) → Bool
  | [] => true
  | (_, v) :: rest => supported v && supportedEntries rest

end

mutual

/-- Modelled from the claim's words: the image of a supported value under
the coercion rules of §4.1 — dicts keep their entries recursively, a
list/tuple of numbers becomes the numeric array `np.array` builds from it,
a byte string comes back as decoded text, and every other supported leaf is
unchanged. -/
def coerceVal : PyVal → PyVal
  | .pydict es => .pydict (coerceEntries es)
  | .pylist xs =>
      match npOfList xs with
      | some a => .nparr a
      | none => .pylist xs
  | .pytuple xs =>
      match npOfList xs with
      | some a => .nparr a
      | none => .pytuple xs
  | .pybytes s => .pystr s
  | v => v

/-- Entrywise coercion of a dict's entries. -/
def coerceEntries : List (String × PyVal) → List (String × PyVal)
  | [] => []
  | (k, v) :: rest => (k, coerceVal v) :: coerceEntries rest

end

mutual

/-- Byte-string-freedom of a value: no `pybytes` leaf anywhere. -/
def bytesFree : PyVal → Bool
  | .pybytes _ => false
  | .pydict es => bytesFreeEntries es
  | _ => true

/-- Conjunction of `bytesFree` over a dict's entries. -/
def bytesFreeEntries : List (String × PyVal) → Bool
  | [] => true
  | (_, v) :: rest => bytesFree v && bytesFreeEntries rest

end

/-- A concrete 6-key mapping whose key "f" holds a 6-key nested mapping. -/
def sixKeyExample : List (String × PyVal) :=
  [("a", .pyint 1), ("b", .pyint 2), ("c", .pyint 3), ("d", .pyint 4), ("e", .pyint 5),
   ("f", .pydict [("u", .pyint 1), ("v", .pyint 2), ("w", .pyint 3), ("x", .pyint 4),
     ("y", .pyint 5), ("z", .pyint 6)])]

/-- A concrete supported mapping exercising every supported leaf shape. -/
def roundTripExample : List (String × PyVal) :=
  [("i", .pyint 5), ("f", .pyfloat (3/2)), ("s", .pystr "x"), ("b", .pybytes "raw"),
   ("t", .pybool true), ("l", .pylist [.pyint 1, .pyint 2]),
   ("u", .pytuple [.pyfloat (1/2), .pyfloat 3]), ("a", .nparr (.ints [4, 5])),
   ("d", .pydict [("z", .pystr "y")])]

/-! ## Theorems

General lemmas first, then one theorem per claim (with witnesses and
counterexamples where required). -/

theorem save_dict_locked (fs : FS) (data : List (String × PyVal)) (hl : fs.lock = true) :
    save_dict fs data = (.error .fileLocked, fs) := by
  simp [save_dict, LockFile_enter, hl]

theorem save_dict_unlocked_lock (fs : FS) (data : List (String × PyVal)) (hl : fs.lock = false) :
    (save_dict fs data).2.lock = false := by
  simp only [save_dict, LockFile_enter, hl]
  cases hsb : save_dict_body fs.tree data with
  | ok t => simp [LockFile_exit]
  | error e => simp [LockFile_exit]

theorem save_dict_unlocked_outcome (fs : FS) (data : List (String × PyVal))
    (hl : fs.lock = false) : (save_dict fs data).1 ≠ Except.error SaveErr.fileLocked := by
  simp only [save_dict, LockFile_enter, hl]
  cases hsb : save_dict_body fs.tree data with
  | ok t => simp
  | error e => simp

/-- Claim C3: a second write attempted while the lock sentinel exists fails
with `FileLockedError` and leaves the container unmodified; whenever a
write's scope exits — returning normally or raising inside the h5py body —
the sentinel is gone, so a subsequent mutating call does not fail with
`FileLockedError`.  The last conjunct exhibits the raising path concretely:
a body error still removes the sentinel. -/
theorem lock_exclusivity_C3 (fs : FS) (data data2 : List (String × PyVal)) (k : String) :
    (fs.lock = true → save_dict fs data = (.error .fileLocked, fs)) ∧
    (fs.lock = false → (save_dict fs data).2.lock = false) ∧
    (fs.lock = false →
      (save_dict (save_dict fs data).2 data2).1 ≠ Except.error SaveErr.fileLocked) ∧
    save_dict ⟨false, fs.tree⟩ [(k, .pyset [])] = (.error .h5err, ⟨false, fs.tree⟩) := by
  refine ⟨fun hl => save_dict_locked fs data hl,
          fun hl => save_dict_unlocked_lock fs data hl,
          fun hl => save_dict_unlocked_outcome _ data2 (save_dict_unlocked_lock fs data hl),
          ?_⟩
  simp [save_dict, LockFile_enter, LockFile_exit, save_dict_body, save_sub_dict,
    bind, Except.bind]

/-- Witness for C3 at concrete states: a locked filesystem rejects the
write unchanged; an unlocked one ends with the sentinel absent on both the
normal and the raising path, and a follow-up write is not refused. -/
theorem lock_exclusivity_C3_witness :
    save_dict ⟨true, []⟩ [("a", .pyint 1)] = (.error .fileLocked, ⟨true, []⟩) ∧
    (save_dict ⟨false, []⟩ [("a", .pyint 1)]).2.lock = false ∧
    (save_dict (save_dict ⟨false, []⟩ [("a", .pyint 1)]).2 [("b", .pyint 2)]).1 ≠
      Except.error SaveErr.fileLocked ∧
    save_dict ⟨false, []⟩ [("c", .pyset [])] = (.error .h5err, ⟨false, []⟩) :=
  ⟨(lock_exclusivity_C3 ⟨true, []⟩ [("a", .pyint 1)] [] "x").1 rfl,
   (lock_exclusivity_C3 ⟨false, []⟩ [("a", .pyint 1)] [("b", .pyint 2)] "x").2.1 rfl,
   (lock_exclusivity_C3 ⟨false, []⟩ [("a", .pyint 1)] [("b", .pyint 2)] "x").2.2.1 rfl,
   (lock_exclusivity_C3 ⟨false, []⟩ [] [] "c").2.2.2⟩

theorem keyMemB_eraseP {α : Type} (k : String) (t : List (String × α))
    (hn : keysNodupB t = true) :
    keyMemB k (t.eraseP (fun e => k == e.1)) = false := by
  induction t with
  | nil => rfl
  | cons e rest ih =>
      simp only [keysNodupB, Bool.and_eq_true, Bool.not_eq_true'] at hn
      by_cases hk : (k == e.1) = true
      · have : k = e.1 := eq_of_beq hk
        subst this
        simp [List.eraseP_cons, hk, hn.1]
      · simp only [List.eraseP_cons, hk, cond_false, keyMemB, Bool.or_eq_false_iff]
        exact ⟨by simpa using hk, ih hn.2⟩

theorem eraseP_of_keyMemB_false {α : Type} (k : String) (t : List (String × α))
    (hm : keyMemB k t = false) :
    t.eraseP (fun e => k == e.1) = t := by
  induction t with
  | nil => rfl
  | cons e rest ih =>
      simp only [keyMemB, Bool.or_eq_false_iff] at hm
      simp [List.eraseP_cons, hm.1, ih hm.2]

/-- Claim C4: writing `{k: None}` under a free lock always succeeds, pops
`k` when it exists (leaving it absent), and is a no-op when `k` never
existed. -/
theorem delete_by_none_C4 (fs : FS) (k : String) (hl : fs.lock = false)
    (hn : keysNodupB fs.tree = true) :
    ∃ t', save_dict fs [(k, .pynone)] = (.ok (), ⟨false, t'⟩) ∧
      keyMemB k t' = false ∧
      (keyMemB k fs.tree = false → t' = fs.tree) := by
  by_cases hm : keyMemB k fs.tree = true
  · refine ⟨fs.tree.eraseP (fun e => k == e.1), ?_, keyMemB_eraseP k fs.tree hn, ?_⟩
    · simp [save_dict, LockFile_enter, LockFile_exit, hl, save_dict_body, hm]
    · intro hf
      rw [hm] at hf
      cases hf
  · refine ⟨fs.tree, ?_, by simpa using hm, fun _ => rfl⟩
    simp only [Bool.not_eq_true] at hm
    simp [save_dict, LockFile_enter, LockFile_exit, hl, save_dict_body, hm]

/-- Witness for C4: deleting an existing key leaves it absent; deleting a
never-existing key is a successful no-op. -/
theorem delete_by_none_C4_witness :
    (∃ t', save_dict ⟨false, [("x", .dset (.hI 1))]⟩ [("x", .pynone)] = (.ok (), ⟨false, t'⟩) ∧
      keyMemB "x" t' = false ∧
      (keyMemB "x" [("x", HNode.dset (.hI 1))] = false → t' = [("x", .dset (.hI 1))])) ∧
    (∃ t', save_dict ⟨false, [("x", .dset (.hI 1))]⟩ [("y", .pynone)] = (.ok (), ⟨false, t'⟩) ∧
      keyMemB "y" t' = false ∧
      (keyMemB "y" [("x", HNode.dset (.hI 1))] = false → t' = [("x", .dset (.hI 1))])) :=
  ⟨delete_by_none_C4 ⟨false, [("x", .dset (.hI 1))]⟩ "x" rfl (by decide),
   delete_by_none_C4 ⟨false, [("x", .dset (.hI 1))]⟩ "y" rfl (by decide)⟩

theorem get_dict_structure_eq_map (data : List (String × PyVal)) (level : Nat) :
    get_dict_structure data level = data.map (fun e => (e.1, describeVal e.2 level)) := by
  induction data with
  | nil => simp [get_dict_structure]
  | cons e rest ih =>
      cases e
      simp [get_dict_structure, ih]

theorem describeVal_dict_level0 (es : List (String × PyVal)) :
    describeVal (.pydict es) 0 = .str "variable of type dict" := by
  simp [describeVal]

theorem describeVal_dict_big (es : List (String × PyVal)) (level : Nat) (hl : level ≠ 0)
    (h6 : 5 < es.length) : describeVal (.pydict es) level = .str "variable of type dict" := by
  have hlen : (get_dict_structure es (level - 1)).length = es.length := by
    rw [get_dict_structure_eq_map]
    simp
  have hne : es.length ≠ 0 := by omega
  simp [describeVal, hl, hne, slen, hlen, h6]

/-- Claim C5: a mapping with 6 top-level keys is summarized key by key (the
entry level itself never collapses: the keys and the entry count are
preserved); a value that is itself a 6-key mapping collapses to "variable of
type dict" at the default depth; and at depth 0 every dict value collapses
regardless of size. -/
theorem structure_collapse_C5 (data : List (String × PyVal)) (h6 : data.length = 6) :
    (get_dict_structure data 3).map Prod.fst = data.map Prod.fst ∧
    (get_dict_structure data 3).length = 6 ∧
    (∀ k es, (k, PyVal.pydict es) ∈ data → es.length = 6 →
      (k, Struct.str "variable of type dict") ∈ get_dict_structure data 3) ∧
    (∀ k es, (k, PyVal.pydict es) ∈ data →
      (k, Struct.str "variable of type dict") ∈ get_dict_structure data 0) := by
  refine ⟨?_, ?_, ?_, ?_⟩
  · rw [get_dict_structure_eq_map]
    simp
  · rw [get_dict_structure_eq_map]
    simp [h6]
  · intro k es hmem hlen
    rw [get_dict_structure_eq_map]
    have hm := List.mem_map_of_mem (fun e => (e.1, describeVal e.2 3)) hmem
    simpa [describeVal_dict_big es 3 (by omega) (by omega)] using hm
  · intro k es hmem
    rw [get_dict_structure_eq_map]
    have hm := List.mem_map_of_mem (fun e => (e.1, describeVal e.2 0)) hmem
    simpa [describeVal_dict_level0] using hm

/-- Witness for C5 on a concrete 6-key mapping whose key "f" holds a 6-key
nested mapping. -/
theorem structure_collapse_C5_witness :
    (get_dict_structure sixKeyExample 3).length = 6 ∧
    ("f", Struct.str "variable of type dict") ∈
      get_dict_structure sixKeyExample 3 ∧
    ("f", Struct.str "variable of type dict") ∈
      get_dict_structure sixKeyExample 0 :=
  ⟨(structure_collapse_C5 sixKeyExample rfl).2.1,
   (structure_collapse_C5 sixKeyExample rfl).2.2.1 "f" _
     (List.Mem.tail _ (List.Mem.tail _ (List.Mem.tail _ (List.Mem.tail _
       (List.Mem.tail _ (List.Mem.head _)))))) rfl,
   (structure_collapse_C5 sixKeyExample rfl).2.2.2 "f" _
     (List.Mem.tail _ (List.Mem.tail _ (List.Mem.tail _ (List.Mem.tail _
       (List.Mem.tail _ (List.Mem.head _))))))⟩

/-- Claim C6 names a bug: the code computes the string "empty dict" for an
empty nested mapping, but then applies the entry-count collapse check to
that very string; its length 10 exceeds 5, so the description that actually
comes out is "variable of type dict" — the "empty dict" literal is
unreachable.  This theorem evaluates the code at the failing input. -/
theorem empty_dict_description_C6 :
    (∀ level, describeVal (.pydict []) (level + 1) = .str "variable of type dict") ∧
    get_dict_structure [("a", .pydict [])] 3 = [("a", .str "variable of type dict")] ∧
    5 < "empty dict".length := by
  have h1 : slen (Struct.str "empty dict") = 10 := by decide
  refine ⟨fun level => by simp [describeVal, h1], ?_, by decide⟩
  rw [get_dict_structure_eq_map]
  simp [describeVal, h1]

theorem fmtSci3_neg_three_halves : fmtSci3 (-(3:ℚ)/2) = "-1.500e+00" := by
  have h0 : ¬ ((-(3:ℚ)/2) = 0) := by norm_num
  have hd : sciDigits (-(3:ℚ)/2) = (1500, 0) := by
    have ha : |(-(3:ℚ)/2)| = 3/2 := by
      rw [abs_of_neg (by norm_num)]
      norm_num
    have h1 : decExp (3/2 : ℚ) = 0 := by
      have hf : ⌊(3/2 : ℚ)⌋ = 1 := by norm_num
      rw [decExp, if_pos (by norm_num : (1:ℚ) ≤ 3/2), hf]
      decide
    have h2 : (3/2 : ℚ) / pow10 0 * 1000 = 1500 := by
      rw [pow10, if_pos (by norm_num : (0:ℤ) ≤ 0)]
      norm_num
    have h3 : rhe (1500 : ℚ) = 1500 := by norm_num [rhe]
    rw [sciDigits, ha, h1, h2, h3]
    norm_num
  have hneg : ((-(3:ℚ)/2) < 0) := by norm_num
  rw [fmtSci3, if_neg h0, hd, if_pos hneg]
  decide

theorem fmtSci3_one_twentieth : fmtSci3 (1/20 : ℚ) = "5.000e-02" := by
  have h0 : ¬ ((1/20 : ℚ) = 0) := by norm_num
  have hd : sciDigits (1/20 : ℚ) = (5000, -2) := by
    have ha : |(1/20 : ℚ)| = 1/20 := by rw [abs_of_pos (by norm_num)]
    have h1 : decExp (1/20 : ℚ) = -2 := by
      have hc : ⌈(1:ℚ)/(1/20)⌉ = 20 := by norm_num
      rw [decExp, if_neg (by norm_num : ¬ (1:ℚ) ≤ 1/20), one_div, ← one_div, hc]
      decide
    have h2 : (1/20 : ℚ) / pow10 (-2) * 1000 = 5000 := by
      rw [pow10, if_neg (by norm_num : ¬ (0:ℤ) ≤ -2)]
      have ht : ((-(-2:ℤ)).toNat) = 2 := by decide
      rw [ht]
      norm_num
    have h3 : rhe (5000 : ℚ) = 5000 := by norm_num [rhe]
    rw [sciDigits, ha, h1, h2, h3]
    norm_num
  have hpos : ¬ ((1/20 : ℚ) < 0) := by norm_num
  rw [fmtSci3, if_neg h0, hd, if_neg hpos]
  decide

theorem fmtFixed3_neg_three_halves : fmtFixed3 (-(3:ℚ)/2) = "-1.500" := by
  have h1 : (-(3:ℚ)/2) * 1000 = -1500 := by norm_num
  have h2 : rhe (-1500 : ℚ) = -1500 := by norm_num [rhe]
  have hneg : ((-(3:ℚ)/2) < 0) := by norm_num
  rw [fmtFixed3, h1, h2, if_pos hneg]
  decide

theorem fmtFixed3_one_point_2345 : fmtFixed3 (12345/10000 : ℚ) = "1.234" := by
  have h1 : (12345/10000 : ℚ) * 1000 = 2469/2 := by norm_num
  have h2 : rhe (2469/2 : ℚ) = 1234 := by norm_num [rhe]
  have hpos : ¬ ((12345/10000 : ℚ) < 0) := by norm_num
  rw [fmtFixed3, h1, h2, if_neg hpos]
  decide

theorem describeVal_float (q : ℚ) (lvl : Nat) :
    describeVal (.pyfloat q) lvl =
      .str ((if 1/10 ≤ q ∧ q ≤ 100 then fmtFixed3 q else fmtSci3 q) ++ " (type : float)") := by
  simp [describeVal]

/-- Counterexample for claim C7: the code tests `.1 <= v <= 100` on the
signed value, not on the magnitude.  At `v = -1.5` the magnitude lies in
`[0.1, 100]` yet the code formats scientifically; and the claim's example
output "1.235" for `1.2345` is also wrong — the value formats as "1.234"
(CPython agrees: the double nearest 1.2345 is below the tie). -/
theorem float_magnitude_counterexample_C7 :
    ((1:ℚ)/10 ≤ |(-(3:ℚ)/2)| ∧ |(-(3:ℚ)/2)| ≤ 100) ∧
    fmtFixed3 (-(3:ℚ)/2) = "-1.500" ∧
    get_dict_structure [("a", .pyfloat (-(3:ℚ)/2))] 3 =
      [("a", .str "-1.500e+00 (type : float)")] ∧
    ("-1.500e+00 (type : float)" : String) ≠ "-1.500 (type : float)" ∧
    get_dict_structure [("b", .pyfloat (12345/10000 : ℚ))] 3 =
      [("b", .str "1.234 (type : float)")] ∧
    ("1.234 (type : float)" : String) ≠ "1.235 (type : float)" := by
  have hc1 : ¬ ((1:ℚ)/10 ≤ -(3:ℚ)/2 ∧ -(3:ℚ)/2 ≤ 100) := by
    intro hcontra
    have := hcontra.1
    norm_num at this
  have hc2 : ((1:ℚ)/10 ≤ 12345/10000 ∧ (12345/10000 : ℚ) ≤ 100) := by norm_num
  refine ⟨⟨by rw [abs_of_neg (by norm_num)]; norm_num, by rw [abs_of_neg (by norm_num)]; norm_num⟩,
    fmtFixed3_neg_three_halves, ?_, by decide, ?_, by decide⟩
  · rw [get_dict_structure_eq_map]
    have hd : describeVal (.pyfloat (-(3:ℚ)/2)) 3 = .str "-1.500e+00 (type : float)" := by
      rw [describeVal_float, if_neg hc1, fmtSci3_neg_three_halves]
      congr 1
    simp [hd]
  · rw [get_dict_structure_eq_map]
    have hd : describeVal (.pyfloat (12345/10000 : ℚ)) 3 = .str "1.234 (type : float)" := by
      rw [describeVal_float, if_pos hc2, fmtFixed3_one_point_2345]
      congr 1
    simp [hd]

/-- Claim C7 as amended: a float value at a key is described through the
float branch, which formats with three decimal places when the signed value
itself lies in `[0.1, 100]` (so a negative float always uses scientific
notation even when its magnitude is in range) and scientifically with three
significant digits otherwise, annotated with the type name. -/
theorem float_description_C7 (data : List (String × PyVal)) (k : String) (q : ℚ) (lvl : Nat)
    (hmem : (k, PyVal.pyfloat q) ∈ data) :
    (k, Struct.str ((if 1/10 ≤ q ∧ q ≤ 100 then fmtFixed3 q else fmtSci3 q) ++ " (type : float)"))
      ∈ get_dict_structure data lvl := by
  rw [get_dict_structure_eq_map]
  have hm := List.mem_map_of_mem (fun e => (e.1, describeVal e.2 lvl)) hmem
  simpa [describeVal_float] using hm

/-- Witness for the amended C7: the float `0.05` is described in scientific
notation, as the claim's example says. -/
theorem float_description_C7_witness :
    ("a", Struct.str ((if (1:ℚ)/10 ≤ (1/20 : ℚ) ∧ (1/20 : ℚ) ≤ 100 then fmtFixed3 (1/20)
        else fmtSci3 (1/20)) ++ " (type : float)"))
      ∈ get_dict_structure [("a", .pyfloat (1/20))] 3 ∧
    (if (1:ℚ)/10 ≤ (1/20 : ℚ) ∧ (1/20 : ℚ) ≤ 100 then fmtFixed3 (1/20)
        else fmtSci3 (1/20)) = "5.000e-02" :=
  ⟨float_description_C7 [("a", .pyfloat (1/20))] "a" (1/20) 3 (List.Mem.head _),
   by
    rw [if_neg (by norm_num : ¬ ((1:ℚ)/10 ≤ (1/20 : ℚ) ∧ (1/20 : ℚ) ≤ 100))]
    exact fmtSci3_one_twentieth⟩

/-- Claim C10: a Python bool is an instance of `int`, so the summarizer
describes it through the integer branch — the `f"{v:.0f}"` rendering (1 or
0) annotated with the type name `bool` — never as the generic
"variable of type bool". -/
theorem bool_int_branch_C10 (data : List (String × PyVal)) (k : String) (b : Bool) (lvl : Nat)
    (hmem : (k, PyVal.pybool b) ∈ data) :
    (k, Struct.str ((if b then "1" else "0") ++ " (type : bool)")) ∈ get_dict_structure data lvl ∧
    describeVal (.pybool b) lvl ≠ .str "variable of type bool" := by
  have hb : String.mk (intChars (if b then 1 else 0)) = (if b then "1" else "0") := by
    cases b <;> decide
  constructor
  · rw [get_dict_structure_eq_map]
    have hm := List.mem_map_of_mem (fun e => (e.1, describeVal e.2 lvl)) hmem
    simpa [describeVal, hb] using hm
  · cases b <;> simp [describeVal] <;> decide

/-- Witness for C10: `True` is described as "1 (type : bool)". -/
theorem bool_int_branch_C10_witness :
    ("a", Struct.str ((if true then "1" else "0") ++ " (type : bool)")) ∈
      get_dict_structure [("a", .pybool true)] 3 ∧
    describeVal (.pybool true) 3 ≠ .str "variable of type bool" :=
  bool_int_branch_C10 [("a", .pybool true)] "a" true 3 (List.Mem.head _)

/-- Counterexample for claim C9: the code splices each annotation BEFORE the
key's colon (between the closing quote and the colon), not immediately after
the colon as the claim says.  `output_dict_structure_claimed` renders the
claim's reading; at a one-key mapping with annotation "X" the two outputs
differ. -/
theorem splice_position_counterexample_C9 :
    output_dict_structure [("a", .pyint 1)] [("a", "X")] =
      "\x7b\n    \"a\"X: \"1 (type : int)\"\n\x7d" ∧
    output_dict_structure_claimed [("a", .pyint 1)] [("a", "X")] =
      "\x7b\n    \"a\":X \"1 (type : int)\"\n\x7d" ∧
    ("\x7b\n    \"a\"X: \"1 (type : int)\"\n\x7d" : String) ≠
      "\x7b\n    \"a\":X \"1 (type : int)\"\n\x7d" := by
  have hd : describeVal (.pyint 1) 3 = .str "1 (type : int)" := by
    rw [describeVal]
    have : String.mk (intChars 1) = "1" := by decide
    rw [this]
    congr 1
  have hg : get_dict_structure [("a", .pyint 1)] 3 = [("a", .str "1 (type : int)")] := by
    rw [get_dict_structure_eq_map]
    simp [hd]
  have hr : dict_to_json_format_str (get_dict_structure [("a", .pyint 1)] 3) =
      "\x7b\n    \"a\": \"1 (type : int)\"\n\x7d" := by
    rw [hg]
    simp only [dict_to_json_format_str, dumpStruct, sortByKey, insertByKey, dumpEntry,
      dumpRest, escChars, jsonEscapeChar, indentChars]
    decide
  refine ⟨?_, ?_, by decide⟩
  · simp only [output_dict_structure, List.foldl, hr]
    decide
  · simp only [output_dict_structure_claimed, List.foldl, hr]
    decide

/-- Claim C9 as amended: rendering is the key-sorted, indent-4 JSON dump of
the summary, and each annotation is spliced textually at every occurrence of
the quoted key followed by a colon — the annotation lands immediately after
the key's closing quote and BEFORE the colon.  With no annotations the
rendered text is returned unchanged. -/
theorem splice_before_colon_C9 (data : List (String × PyVal)) (k v : String) :
    output_dict_structure data [] = dict_to_json_format_str (get_dict_structure data 3) ∧
    output_dict_structure data [(k, v)] =
      strReplace (dict_to_json_format_str (get_dict_structure data 3))
        ("\"" ++ k ++ "\":") ("\"" ++ k ++ "\"" ++ v ++ ":") := by
  constructor
  · simp [output_dict_structure]
  · simp [output_dict_structure]

/-- Counterexample for claim C2: a value whose opaque marker is `True` and
which also exposes `_asdict` is NOT stored unchanged.  The §4.1 normalizer
(`transform_to_possible_formats`) does return it unchanged, but the persist
step (`save_sub_dict`) re-applies `_asdict` without ever consulting the
marker, so the value lands in the container decomposed into a group —
exactly as if the plain dict had been written; composing the normalizer
before the writer changes nothing. -/
theorem opaque_marker_counterexample_C2 :
    transform_to_possible_formats (.pyobj "Foo" (some true) (some [("a", .pyint 1)]) none) =
      .pyobj "Foo" (some true) (some [("a", .pyint 1)]) none ∧
    save_dict ⟨false, []⟩ [("k", .pyobj "Foo" (some true) (some [("a", .pyint 1)]) none)] =
      (.ok (), ⟨false, [("k", .group [("a", .dset (.hI 1))])]⟩) ∧
    save_dict ⟨false, []⟩
        [("k", transform_to_possible_formats
          (.pyobj "Foo" (some true) (some [("a", .pyint 1)]) none))] =
      (.ok (), ⟨false, [("k", .group [("a", .dset (.hI 1))])]⟩) ∧
    save_dict ⟨false, []⟩ [("k", .pyobj "Foo" (some true) (some [("a", .pyint 1)]) none)] =
      save_dict ⟨false, []⟩ [("k", .pydict [("a", .pyint 1)])] := by
  have ht : transform_to_possible_formats (.pyobj "Foo" (some true) (some [("a", .pyint 1)]) none) =
      .pyobj "Foo" (some true) (some [("a", .pyint 1)]) none := by
    simp [transform_to_possible_formats]
  have hs : save_dict ⟨false, []⟩ [("k", .pyobj "Foo" (some true) (some [("a", .pyint 1)]) none)] =
      (.ok (), ⟨false, [("k", .group [("a", .dset (.hI 1))])]⟩) := by
    simp [save_dict, LockFile_enter, LockFile_exit, save_dict_body, save_sub_dict, save_entries,
      keyMemB, bind, Except.bind, pure, Except.pure]
  refine ⟨ht, hs, ?_, ?_⟩
  · rw [ht]
    exact hs
  · rw [hs]
    simp [save_dict, LockFile_enter, LockFile_exit, save_dict_body, save_sub_dict, save_entries,
      keyMemB, bind, Except.bind, pure, Except.pure]

/-- Claim C2 as amended: `save_dict` persists values through
`save_sub_dict`, which applies the decomposition (`_asdict`) and then the
array (`asarray`) capability but never consults the opaque marker — an
object exposing `_asdict` is persisted exactly as its decomposition dict,
whatever its marker says; a mapping becomes a group whose children are
persisted recursively, and a non-mapping storable value becomes a leaf
dataset.  The §4.1 normalizer itself does honor the marker. -/
theorem save_capabilities_C2 :
    (∀ nm m d aa, save_sub_dict (.pyobj nm m (some d) aa) = save_sub_dict (.pydict d)) ∧
    (∀ nm m a, save_sub_dict (.pyobj nm m none (some a)) = .ok (some (.dset (.hA a)))) ∧
    (∀ nm ad aa, transform_to_possible_formats (.pyobj nm (some true) ad aa) =
      .pyobj nm (some true) ad aa) ∧
    (∀ es, save_sub_dict (.pydict es) = (save_entries es).map (fun cs => some (.group cs))) ∧
    (∀ n, save_sub_dict (.pyint n) = .ok (some (.dset (.hI n)))) ∧
    (∀ q, save_sub_dict (.pyfloat q) = .ok (some (.dset (.hF q)))) ∧
    (∀ s, save_sub_dict (.pystr s) = .ok (some (.dset (.hS s)))) ∧
    (∀ a, save_sub_dict (.nparr a) = .ok (some (.dset (.hA a)))) := by
  have h1 : ∀ nm m d aa, save_sub_dict (.pyobj nm m (some d) aa) = save_sub_dict (.pydict d) := by
    intro nm m d aa
    simp [save_sub_dict]
  have h2 : ∀ nm m a, save_sub_dict (.pyobj nm m none (some a)) = .ok (some (.dset (.hA a))) := by
    intro nm m a
    simp [save_sub_dict]
  have h3 : ∀ nm ad aa, transform_to_possible_formats (.pyobj nm (some true) ad aa) =
      .pyobj nm (some true) ad aa := by
    intro nm ad aa
    rw [transform_to_possible_formats]
  have h4 : ∀ es, save_sub_dict (.pydict es) =
      (save_entries es).map (fun cs => some (.group cs)) := by
    intro es
    cases h : save_entries es with
    | ok cs => simp [save_sub_dict, h, bind, Except.bind, pure, Except.pure, Except.map]
    | error e => simp [save_sub_dict, h, bind, Except.bind, Except.map]
  have h5 : ∀ n : ℤ, save_sub_dict (.pyint n) = .ok (some (.dset (.hI n))) := by
    intro n
    simp [save_sub_dict]
  have h6 : ∀ q : ℚ, save_sub_dict (.pyfloat q) = .ok (some (.dset (.hF q))) := by
    intro q
    simp [save_sub_dict]
  have h7 : ∀ s : String, save_sub_dict (.pystr s) = .ok (some (.dset (.hS s))) := by
    intro s
    simp [save_sub_dict]
  have h8 : ∀ a, save_sub_dict (.nparr a) = .ok (some (.dset (.hA a))) := by
    intro a
    simp [save_sub_dict]
  exact ⟨h1, h2, h3, h4, h5, h6, h7, h8⟩

theorem open_eq_filter_map (cs : List (String × HNode)) (key : KeyArg) :
    open_h5_group cs key =
      (cs.filter (fun e => selectedKey key e.1)).map (fun e => (e.1, nodeVal e.2)) := by
  induction cs with
  | nil => simp [open_h5_group]
  | cons e rest ih =>
      obtain ⟨k, n⟩ := e
      rw [open_h5_group.eq_def]
      by_cases hc : selectedKey key k = true
      · simp only [hc, if_true, List.filter_cons, List.map_cons, ih]
        cases n <;> simp [nodeVal]
      · have hc2 : selectedKey key k = false := by
          rw [← Bool.not_eq_true]
          exact hc
        simp only [hc2, Bool.false_eq_true, if_false, List.filter_cons, ih]

theorem open_noKey_eq_map (cs : List (String × HNode)) :
    open_h5_group cs .noKey = cs.map (fun e => (e.1, nodeVal e.2)) := by
  rw [open_eq_filter_map]
  simp [selectedKey, keyFilter]

theorem filter_fst_map_swap (cs : List (String × HNode)) (p : String → Bool) :
    (cs.filter (fun e => p e.1)).map (fun e => (e.1, nodeVal e.2)) =
      (cs.map (fun e => (e.1, nodeVal e.2))).filter (fun e => p e.1) := by
  induction cs with
  | nil => rfl
  | cons e rest ih =>
      obtain ⟨k, n⟩ := e
      by_cases hc : p k = true
      · simp only [List.filter_cons, hc, if_true, List.map_cons, ih]
      · have hc2 : p k = false := by
          rw [← Bool.not_eq_true]
          exact hc
        simp only [List.filter_cons, hc2, Bool.false_eq_true, if_false, List.map_cons, ih]

theorem bytesFreeEntries_of_forall (es : List (String × PyVal))
    (h : ∀ e ∈ es, bytesFree e.2 = true) : bytesFreeEntries es = true := by
  induction es with
  | nil => simp [bytesFreeEntries]
  | cons e rest ih =>
      rw [bytesFreeEntries]
      simp only [Bool.and_eq_true]
      exact ⟨h e (List.Mem.head _), ih (fun f hf => h f (List.Mem.tail _ hf))⟩

theorem bytesFree_nodeVal_aux : ∀ (N : Nat) (n : HNode), sizeOf n ≤ N →
    bytesFree (nodeVal n) = true := by
  intro N
  induction N with
  | zero =>
      intro n hn
      exfalso
      cases n <;> simp at hn
  | succ N ih =>
      intro n hn
      match n with
      | .dset l => cases l <;> simp [nodeVal, transform_on_open, readLeaf, bytesFree]
      | .group cs =>
          rw [nodeVal, bytesFree]
          rw [open_noKey_eq_map]
          apply bytesFreeEntries_of_forall
          intro e he
          rw [List.mem_map] at he
          obtain ⟨f, hf, rfl⟩ := he
          apply ih
          have h1 : sizeOf f < sizeOf cs := List.sizeOf_lt_of_mem hf
          have h2 : sizeOf f.2 < sizeOf f := by
            obtain ⟨a, b⟩ := f
            simp
            try omega
          have h3 : sizeOf (HNode.group cs) = 1 + sizeOf cs := by simp
          omega

theorem bytesFree_nodeVal (n : HNode) : bytesFree (nodeVal n) = true :=
  bytesFree_nodeVal_aux (sizeOf n) n le_rfl

/-- Claim C8: the `keys` filter of `open_h5` restricts only the first level
of the traversal — reading with a key set equals reading everything and then
filtering the top level; a single string behaves as its singleton set; every
selected top-level group is read in full (its nested keys unfiltered); and
every byte-string leaf in any result is decoded to text while non-byte
leaves keep their value. -/
theorem read_filter_C8 (cs : List (String × HNode)) (ks : List String) (s : String)
    (karg : KeyArg) :
    open_h5_group cs (.setKey ks) =
      (open_h5_group cs .noKey).filter (fun e => ks.contains e.1) ∧
    open_h5_group cs (.strKey s) = open_h5_group cs (.setKey [s]) ∧
    (∀ k sub, (k, HNode.group sub) ∈ cs → ks.contains k = true →
      (k, PyVal.pydict (open_h5_group sub .noKey)) ∈ open_h5_group cs (.setKey ks)) ∧
    (∀ e ∈ open_h5_group cs karg, bytesFree e.2 = true) ∧
    (∀ l : HLeaf, (∀ s2, l ≠ .hS s2) → transform_on_open (readLeaf l) = readLeaf l) ∧
    (∀ s2, transform_on_open (readLeaf (.hS s2)) = .pystr s2) := by
  refine ⟨?_, ?_, ?_, ?_, ?_, fun s2 => rfl⟩
  · rw [open_eq_filter_map, open_noKey_eq_map]
    have hsel : (fun e : String × HNode => selectedKey (.setKey ks) e.1) =
        (fun e : String × HNode => ks.contains e.1) := rfl
    rw [hsel, filter_fst_map_swap]
  · rw [open_eq_filter_map, open_eq_filter_map]
    simp [selectedKey, keyFilter]
  · intro k sub hmem hks
    rw [open_eq_filter_map]
    have hf : (k, HNode.group sub) ∈ cs.filter (fun e => selectedKey (.setKey ks) e.1) := by
      rw [List.mem_filter]
      exact ⟨hmem, by simpa [selectedKey, keyFilter] using hks⟩
    have hmm := List.mem_map_of_mem (fun e => (e.1, nodeVal e.2)) hf
    simpa [nodeVal] using hmm
  · intro e he
    rw [open_eq_filter_map] at he
    rw [List.mem_map] at he
    obtain ⟨f, _, rfl⟩ := he
    exact bytesFree_nodeVal f.2
  · intro l hl
    cases l with
    | hS s2 => exact absurd rfl (hl s2)
    | hI n => rfl
    | hF q => rfl
    | hB b => rfl
    | hA a => rfl

/-- Witness for C8 on a concrete container: selecting key "g" returns the
whole subgroup (nested keys unfiltered, byte leaves decoded) and drops key
"x"; a single-string key behaves as its singleton set. -/
theorem read_filter_C8_witness :
    open_h5_group [("g", HNode.group [("s", .dset (.hS "hi")), ("n", .dset (.hI 7))]),
        ("x", .dset (.hI 1))] (.setKey ["g"]) =
      (open_h5_group [("g", HNode.group [("s", .dset (.hS "hi")), ("n", .dset (.hI 7))]),
        ("x", .dset (.hI 1))] .noKey).filter (fun e => ["g"].contains e.1) ∧
    open_h5_group [("g", HNode.group [("s", .dset (.hS "hi")), ("n", .dset (.hI 7))]),
        ("x", .dset (.hI 1))] (.strKey "g") =
      open_h5_group [("g", HNode.group [("s", .dset (.hS "hi")), ("n", .dset (.hI 7))]),
        ("x", .dset (.hI 1))] (.setKey ["g"]) ∧
    ("g", PyVal.pydict (open_h5_group [("s", HNode.dset (.hS "hi")), ("n", .dset (.hI 7))]
        .noKey)) ∈
      open_h5_group [("g", HNode.group [("s", .dset (.hS "hi")), ("n", .dset (.hI 7))]),
        ("x", .dset (.hI 1))] (.setKey ["g"]) ∧
    transform_on_open (readLeaf (.hS "hi")) = .pystr "hi" :=
  ⟨(read_filter_C8 [("g", HNode.group [("s", .dset (.hS "hi")), ("n", .dset (.hI 7))]),
      ("x", .dset (.hI 1))] ["g"] "g" .noKey).1,
   (read_filter_C8 [("g", HNode.group [("s", .dset (.hS "hi")), ("n", .dset (.hI 7))]),
      ("x", .dset (.hI 1))] ["g"] "g" .noKey).2.1,
   (read_filter_C8 [("g", HNode.group [("s", .dset (.hS "hi")), ("n", .dset (.hI 7))]),
      ("x", .dset (.hI 1))] ["g"] "g" .noKey).2.2.1 "g" _ (List.Mem.head _) rfl,
   (read_filter_C8 [("g", HNode.group [("s", .dset (.hS "hi")), ("n", .dset (.hI 7))]),
      ("x", .dset (.hI 1))] ["g"] "g" .noKey).2.2.2.2.2 "hi"⟩

theorem supportedEntries_iff (es : List (String × PyVal)) :
    supportedEntries es = true ↔ ∀ e ∈ es, supported e.2 = true := by
  induction es with
  | nil => simp [supportedEntries]
  | cons e rest ih =>
      obtain ⟨k, v⟩ := e
      rw [supportedEntries]
      simp only [Bool.and_eq_true, ih, List.mem_cons]
      constructor
      · rintro ⟨h1, h2⟩ f (rfl | hf)
        · exact h1
        · exact h2 f hf
      · intro h
        exact ⟨h (k, v) (Or.inl rfl), fun f hf => h f (Or.inr hf)⟩

theorem save_entries_roundtrip_of (es : List (String × PyVal))
    (H : ∀ e ∈ es, ∃ n, save_sub_dict e.2 = .ok (some n) ∧ nodeVal n = coerceVal e.2) :
    ∃ cs, save_entries es = .ok cs ∧
      cs.map (fun e => (e.1, nodeVal e.2)) = coerceEntries es := by
  induction es with
  | nil => exact ⟨[], by simp [save_entries], by simp [coerceEntries]⟩
  | cons e rest ih =>
      obtain ⟨k, v⟩ := e
      obtain ⟨n, hn, hv⟩ := H (k, v) (List.Mem.head _)
      obtain ⟨cs, hcs, hmap⟩ := ih (fun f hf => H f (List.Mem.tail _ hf))
      refine ⟨(k, n) :: cs, ?_, ?_⟩
      · simp [save_entries, hn, hcs, bind, Except.bind, pure, Except.pure]
      · rw [coerceEntries]
        simp [hv, hmap]

theorem save_sub_roundtrip_aux : ∀ (N : Nat) (v : PyVal), sizeOf v ≤ N →
    supported v = true →
    ∃ n, save_sub_dict v = .ok (some n) ∧ nodeVal n = coerceVal v := by
  intro N
  induction N with
  | zero =>
      intro v hsz _
      exfalso
      cases v <;> simp at hsz
  | succ N ih =>
      intro v hsz hsup
      cases v with
      | pynone => simp [supported] at hsup
      | pybool b =>
          exact ⟨.dset (.hB b), by simp [save_sub_dict],
            by simp [nodeVal, transform_on_open, readLeaf, coerceVal]⟩
      | pyint n =>
          exact ⟨.dset (.hI n), by simp [save_sub_dict],
            by simp [nodeVal, transform_on_open, readLeaf, coerceVal]⟩
      | pyfloat q =>
          exact ⟨.dset (.hF q), by simp [save_sub_dict],
            by simp [nodeVal, transform_on_open, readLeaf, coerceVal]⟩
      | pystr s =>
          exact ⟨.dset (.hS s), by simp [save_sub_dict],
            by simp [nodeVal, transform_on_open, readLeaf, coerceVal]⟩
      | pybytes s =>
          exact ⟨.dset (.hS s), by simp [save_sub_dict],
            by simp [nodeVal, transform_on_open, readLeaf, coerceVal]⟩
      | nparr a =>
          exact ⟨.dset (.hA a), by simp [save_sub_dict],
            by simp [nodeVal, transform_on_open, readLeaf, coerceVal]⟩
      | pylist xs =>
          rw [supported] at hsup
          obtain ⟨a, ha⟩ := Option.isSome_iff_exists.mp hsup
          refine ⟨.dset (.hA a), ?_, ?_⟩
          · rw [save_sub_dict, ha]
          · rw [nodeVal, coerceVal, ha]
            rfl
      | pytuple xs =>
          rw [supported] at hsup
          obtain ⟨a, ha⟩ := Option.isSome_iff_exists.mp hsup
          refine ⟨.dset (.hA a), ?_, ?_⟩
          · rw [save_sub_dict, ha]
          · rw [nodeVal, coerceVal, ha]
            rfl
      | pyset xs => simp [supported] at hsup
      | pyobj nm m ad aa => simp [supported] at hsup
      | pydict es =>
          rw [supported] at hsup
          rw [Bool.and_eq_true] at hsup
          have hmem : ∀ e ∈ es, supported e.2 = true :=
            (supportedEntries_iff es).mp hsup.2
          have H : ∀ e ∈ es, ∃ n, save_sub_dict e.2 = .ok (some n) ∧
              nodeVal n = coerceVal e.2 := by
            intro e he
            apply ih e.2 _ (hmem e he)
            have h1 : sizeOf e < sizeOf es := List.sizeOf_lt_of_mem he
            have h2 : sizeOf e.2 < sizeOf e := by
              obtain ⟨a, b⟩ := e
              simp
              try omega
            have h3 : sizeOf (PyVal.pydict es) = 1 + sizeOf es := by simp
            omega
          obtain ⟨cs, hcs, hmap⟩ := save_entries_roundtrip_of es H
          refine ⟨.group cs, ?_, ?_⟩
          · simp [save_sub_dict, hcs, bind, Except.bind, pure, Except.pure]
          · rw [nodeVal, open_noKey_eq_map, hmap, coerceVal]

theorem save_sub_roundtrip (v : PyVal) (h : supported v = true) :
    ∃ n, save_sub_dict v = .ok (some n) ∧ nodeVal n = coerceVal v :=
  save_sub_roundtrip_aux (sizeOf v) v le_rfl h

theorem keyMemB_false_forall {α : Type} (k : String) (l : List (String × α))
    (h : keyMemB k l = false) : ∀ e ∈ l, (k == e.1) = false := by
  induction l with
  | nil => intro e he; cases he
  | cons f rest ih =>
      rw [keyMemB] at h
      rw [Bool.or_eq_false_iff] at h
      intro e he
      cases he with
      | head => exact h.1
      | tail _ hrest => exact ih h.2 e hrest

theorem keyMemB_append {α : Type} (k : String) (l1 l2 : List (String × α)) :
    keyMemB k (l1 ++ l2) = (keyMemB k l1 || keyMemB k l2) := by
  induction l1 with
  | nil => simp [keyMemB]
  | cons f rest ih =>
      simp [keyMemB, ih, Bool.or_assoc]

theorem save_dict_body_cons_of_ok (t : List (String × HNode)) (k : String) (v : PyVal)
    (rest : List (String × PyVal)) (n : HNode)
    (hn : save_sub_dict v = .ok (some n)) (hm : keyMemB k t = false) :
    save_dict_body t ((k, v) :: rest) = save_dict_body (t ++ [(k, n)]) rest := by
  cases v
  case pynone => simp [save_sub_dict] at hn
  all_goals simp [save_dict_body, hm, hn, bind, Except.bind]

theorem save_dict_body_append (D : List (String × PyVal)) :
    ∀ t, (∀ e ∈ D, keyMemB e.1 t = false) → keysNodupB D = true →
    (∀ e ∈ D, supported e.2 = true) →
    ∃ cs, save_entries D = .ok cs ∧ save_dict_body t D = .ok (t ++ cs) := by
  induction D with
  | nil =>
      intro t _ _ _
      exact ⟨[], by simp [save_entries], by simp [save_dict_body]⟩
  | cons e rest ih =>
      intro t hdisj hnd hsup
      obtain ⟨k, v⟩ := e
      rw [keysNodupB] at hnd
      rw [Bool.and_eq_true, Bool.not_eq_true'] at hnd
      obtain ⟨n, hn, _⟩ := save_sub_roundtrip v (hsup (k, v) (List.Mem.head _))
      have hm : keyMemB k t = false := hdisj (k, v) (List.Mem.head _)
      have hdisj2 : ∀ e ∈ rest, keyMemB e.1 (t ++ [(k, n)]) = false := by
        intro f hf
        rw [keyMemB_append]
        rw [Bool.or_eq_false_iff]
        refine ⟨hdisj f (List.Mem.tail _ hf), ?_⟩
        have hkf : (k == f.1) = false := keyMemB_false_forall k rest hnd.1 f hf
        have hfk : (f.1 == k) = false := by
          rw [beq_eq_false_iff_ne] at hkf ⊢
          exact fun heq => hkf heq.symm
        simp [keyMemB, hfk]
      obtain ⟨cs, hcs, hbody⟩ := ih (t ++ [(k, n)]) hdisj2 hnd.2
        (fun f hf => hsup f (List.Mem.tail _ hf))
      refine ⟨(k, n) :: cs, ?_, ?_⟩
      · simp [save_entries, hn, hcs, bind, Except.bind, pure, Except.pure]
      · rw [save_dict_body_cons_of_ok t k v rest n hn hm, hbody]
        simp

/-- Claim C1: writing a supported nested mapping to a fresh container and
reading it back yields the mapping's image under the coercion rules of §4.1
(`coerceVal`): nested dicts survive entrywise, lists/tuples of numbers come
back as the numeric arrays `np.array` builds from them, byte strings come
back as decoded text, and every other supported leaf is unchanged. -/
theorem round_trip_C1 (D : List (String × PyVal)) (h : supported (.pydict D) = true) :
    ∃ fs : FS, save_dict ⟨false, []⟩ D = (.ok (), fs) ∧ fs.lock = false ∧
      open_h5 fs .noKey = coerceEntries D := by
  rw [supported] at h
  rw [Bool.and_eq_true] at h
  have hsup : ∀ e ∈ D, supported e.2 = true := (supportedEntries_iff D).mp h.2
  have hdisj : ∀ e ∈ D, keyMemB e.1 ([] : List (String × HNode)) = false := by
    intro e _
    rfl
  obtain ⟨cs, hcs, hbody⟩ := save_dict_body_append D [] hdisj h.1 hsup
  have H : ∀ e ∈ D, ∃ n, save_sub_dict e.2 = .ok (some n) ∧ nodeVal n = coerceVal e.2 :=
    fun e he => save_sub_roundtrip e.2 (hsup e he)
  obtain ⟨cs2, hcs2, hmap⟩ := save_entries_roundtrip_of D H
  have hcseq : cs = cs2 := by
    rw [hcs] at hcs2
    exact Except.ok.inj hcs2
  refine ⟨⟨false, cs⟩, ?_, rfl, ?_⟩
  · simp [save_dict, LockFile_enter, LockFile_exit, hbody]
  · rw [open_h5, open_noKey_eq_map, hcseq, hmap]

/-- Witness for C1: the example mapping is supported, round-trips, and its
coerced image is computed explicitly — the list comes back as an int array,
the tuple as a float array, the byte string as text, and the nested dict
entrywise. -/
theorem round_trip_C1_witness :
    supported (.pydict roundTripExample) = true ∧
    (∃ fs : FS, save_dict ⟨false, []⟩ roundTripExample = (.ok (), fs) ∧ fs.lock = false ∧
      open_h5 fs .noKey = coerceEntries roundTripExample) ∧
    coerceEntries roundTripExample =
      [("i", .pyint 5), ("f", .pyfloat (3/2)), ("s", .pystr "x"), ("b", .pystr "raw"),
       ("t", .pybool true), ("l", .nparr (.ints [1, 2])),
       ("u", .nparr (.floats [1/2, 3])), ("a", .nparr (.ints [4, 5])),
       ("d", .pydict [("z", .pystr "y")])] := by
  have hsupp : supported (.pydict roundTripExample) = true := by
    simp [roundTripExample, supported, supportedEntries, keysNodupB, keyMemB, npOfList,
      asInt?, asRat?, List.mapM, List.mapM.loop]
  refine ⟨hsupp, round_trip_C1 roundTripExample hsupp, ?_⟩
  simp [roundTripExample, coerceEntries, coerceVal, npOfList, asInt?, asRat?,
    List.mapM, List.mapM.loop]

end AcqUtils
